import Mathlib

/-!
Verification development for the AI-SDK fundamentals starter repository.

The development shallowly embeds the two non-trivial components of the
repository:

* the model router (`selectModel` and its helpers, together with the
  in-memory telemetry store), and
* the chunked large-document extractor (`chunkText`, `processChunk`,
  `saveCheckpoint`, `reduceResults` and the main processing loop of
  `extractLargeDocument`).

JavaScript numbers are modelled by exact rationals (`ℚ`); strings by Lean
`String` where their content is opaque, and by `List Char` where the
character-level algorithms (chunking) are verified.  Stateful code
(the telemetry singleton, checkpoint files) is modelled by explicit state
passing; calls into the external generation API are modelled by oracle
functions supplied as parameters.  Console output (`console.warn`) is
modelled as a boolean component of the result.
-/

/-- JavaScript `arr.slice(-k)`: the last `k` elements, except that
`slice(-0)` is `slice(0)`, the whole array. -/
def jsSliceLast {α : Type} (l : List α) (k : Nat) : List α :=
  if k = 0 then l else l.drop (l.length - k)

namespace Router

/-- Task names, the `task` enum of `RouterConfigSchema`. -/
inductive Task where
  | classification
  | summarization
  | reasoning
  | extraction
deriving DecidableEq, Repr

/-- Priority modes, the `priority` enum of `RouterConfigSchema`. -/
inductive Priority where
  | cost
  | quality
  | balanced
deriving DecidableEq, Repr

/-- Router configuration (`RouterConfig`).  The two enum fields are already
enforced by typing; the numeric constraint `maxLatencyMs ≥ 0` of the Zod
schema is checked by `selectModel`. -/
structure RouterConfig where
  task : Task
  maxLatencyMs : ℚ
  priority : Priority
  estimatedTokens : Option ℚ := none
deriving DecidableEq, Repr

/-- Per-task capability scores of a model (`taskCapabilities`). -/
structure TaskCapabilities where
  classification : ℚ
  summarization : ℚ
  reasoning : ℚ
  extraction : ℚ
deriving DecidableEq, Repr

/-- Lookup `model.taskCapabilities[task]`. -/
def TaskCapabilities.get (tc : TaskCapabilities) : Task → ℚ
  | .classification => tc.classification
  | .summarization => tc.summarization
  | .reasoning => tc.reasoning
  | .extraction => tc.extraction

/-- Static model metadata (`ModelMetadata`). -/
structure ModelMetadata where
  provider : String
  model : String
  fullName : String
  baseCostPer1kTokens : ℚ
  baseCostPer1kOutputTokens : ℚ
  avgLatencyMs : ℚ
  capabilityTier : String
  supportsStreaming : Bool
  maxTokens : ℚ
  taskCapabilities : TaskCapabilities
deriving DecidableEq, Repr

/-- Telemetry record for one call (`CallTelemetry`). -/
structure CallTelemetry where
  model : String
  task : String
  latencyMs : ℚ
  inputTokens : ℚ
  outputTokens : ℚ
  cost : ℚ
  timestamp : ℚ
  success : Bool
deriving DecidableEq, Repr

/-- `MAX_TELEMETRY_ENTRIES`. -/
def MAX_TELEMETRY_ENTRIES : Nat := 1000

/-- First registry entry: `openai/gpt-5-mini` (standard tier). -/
def gpt5mini : ModelMetadata :=
  { provider := "openai"
    model := "gpt-5-mini"
    fullName := "openai/gpt-5-mini"
    baseCostPer1kTokens := 0.15
    baseCostPer1kOutputTokens := 0.60
    avgLatencyMs := 500
    capabilityTier := "standard"
    supportsStreaming := true
    maxTokens := 128000
    taskCapabilities :=
      { classification := 0.9, summarization := 0.85
        reasoning := 0.6, extraction := 0.9 } }

/-- Second registry entry: `openai/gpt-5` (advanced tier). -/
def gpt5 : ModelMetadata :=
  { provider := "openai"
    model := "gpt-5"
    fullName := "openai/gpt-5"
    baseCostPer1kTokens := 2.50
    baseCostPer1kOutputTokens := 10.00
    avgLatencyMs := 1500
    capabilityTier := "advanced"
    supportsStreaming := true
    maxTokens := 128000
    taskCapabilities :=
      { classification := 0.95, summarization := 0.95
        reasoning := 0.85, extraction := 0.95 } }

/-- Third registry entry: `openai/gpt-5.1-thinking` (reasoning tier). -/
def gpt51thinking : ModelMetadata :=
  { provider := "openai"
    model := "gpt-5.1-thinking"
    fullName := "openai/gpt-5.1-thinking"
    baseCostPer1kTokens := 3.00
    baseCostPer1kOutputTokens := 12.00
    avgLatencyMs := 5000
    capabilityTier := "reasoning"
    supportsStreaming := false
    maxTokens := 128000
    taskCapabilities :=
      { classification := 0.9, summarization := 0.85
        reasoning := 0.98, extraction := 0.9 } }

/-- Fourth registry entry: `openai/gpt-4o-mini` (basic tier). -/
def gpt4omini : ModelMetadata :=
  { provider := "openai"
    model := "gpt-4o-mini"
    fullName := "openai/gpt-4o-mini"
    baseCostPer1kTokens := 0.15
    baseCostPer1kOutputTokens := 0.60
    avgLatencyMs := 400
    capabilityTier := "basic"
    supportsStreaming := true
    maxTokens := 128000
    taskCapabilities :=
      { classification := 0.85, summarization := 0.8
        reasoning := 0.5, extraction := 0.85 } }

/-- The static four-model registry (`MODEL_REGISTRY`), transcribed value by
value from the source. -/
def MODEL_REGISTRY : List ModelMetadata :=
  [gpt5mini, gpt5, gpt51thinking, gpt4omini]

/-- `recordTelemetry`: push the entry, then drop the oldest entry (shift)
when the store exceeds `MAX_TELEMETRY_ENTRIES`.  The process-wide array is
modelled by explicit state passing. -/
def recordTelemetry (store : List CallTelemetry) (t : CallTelemetry) :
    List CallTelemetry :=
  let s := store ++ [t]
  if s.length > MAX_TELEMETRY_ENTRIES then s.tail else s

/-- The telemetry store obtained by a sequence of `recordTelemetry` calls
starting from the empty store. -/
def telemetryLog (es : List CallTelemetry) : List CallTelemetry :=
  es.foldl recordTelemetry []

/-- `getModelTelemetry`: entries for one model, last `limit` of them,
most recent first. -/
def getModelTelemetry (store : List CallTelemetry) (model : String)
    (limit : Nat := 100) : List CallTelemetry :=
  (jsSliceLast (store.filter (fun t => t.model == model)) limit).reverse

/-- Result of `getModelStats` (the fields used by the router). -/
structure ModelStats where
  model : String
  callCount : Nat
  avgLatencyMs : ℚ
  minLatencyMs : ℚ
  maxLatencyMs : ℚ
  avgCost : ℚ
  totalCost : ℚ
  successRate : ℚ
deriving Repr

/-- `getModelStats`: aggregate statistics over the model's telemetry, or
`none` when there is none. -/
def getModelStats (store : List CallTelemetry) (model : String) :
    Option ModelStats :=
  let mt := getModelTelemetry store model
  if mt.length = 0 then none
  else
    let latencies := mt.map (·.latencyMs)
    let costs := mt.map (·.cost)
    some
      { model := model
        callCount := mt.length
        avgLatencyMs := latencies.sum / (latencies.length : ℚ)
        minLatencyMs := latencies.foldr min 0
        maxLatencyMs := latencies.foldr max 0
        avgCost := costs.sum / (costs.length : ℚ)
        totalCost := costs.sum
        successRate := ((mt.filter (·.success)).length : ℚ) / (mt.length : ℚ) }

/-- `estimateCost`: input plus output cost at the model's per-1k rates. -/
def estimateCost (model : ModelMetadata) (inputTokens : ℚ := 1000)
    (outputTokens : ℚ := 500) : ℚ :=
  (inputTokens / 1000) * model.baseCostPer1kTokens +
    (outputTokens / 1000) * model.baseCostPer1kOutputTokens

/-- `getCurrentLatency`: observed average latency when more than 5 calls are
recorded, otherwise the static average. -/
def getCurrentLatency (store : List CallTelemetry) (model : ModelMetadata) :
    ℚ :=
  match getModelStats store model.fullName with
  | some stats => if stats.callCount > 5 then stats.avgLatencyMs
                  else model.avgLatencyMs
  | none => model.avgLatencyMs

/-- The priority-dependent weight triples of `scoreModel`. -/
structure Weights where
  capability : ℚ
  latency : ℚ
  cost : ℚ

/-- Weight selection of `scoreModel`. -/
def weightsFor : Priority → Weights
  | .cost => { capability := 0.3, latency := 0.2, cost := 0.5 }
  | .quality => { capability := 0.6, latency := 0.2, cost := 0.2 }
  | .balanced => { capability := 0.4, latency := 0.3, cost := 0.3 }

/-- `scoreModel`: weighted sum of capability, latency and cost scores. -/
def scoreModel (store : List CallTelemetry) (model : ModelMetadata)
    (config : RouterConfig) (estimatedInputTokens : ℚ := 1000)
    (estimatedOutputTokens : ℚ := 500) : ℚ :=
  let capability := model.taskCapabilities.get config.task
  let latency := getCurrentLatency store model
  let cost := estimateCost model estimatedInputTokens estimatedOutputTokens
  let capabilityScore := capability
  let latencyScore := max 0 (1 - latency / config.maxLatencyMs)
  let costScore := 1 / (1 + cost * 100)
  let weights := weightsFor config.priority
  capabilityScore * weights.capability +
    latencyScore * weights.latency +
    costScore * weights.cost

/-- JavaScript `x || d` on an optional number: the default applies both when
the field is absent and when it is `0` (zero is falsy). -/
def jsOrDefault (x : Option ℚ) (d : ℚ) : ℚ :=
  match x with
  | some v => if v = 0 then d else v
  | none => d

/-- The body of JavaScript `Array.reduce` without an initial value, as used
in the empty-viable-set fallback of `selectModel`: fold over the tail with
the head as the accumulator, replacing the candidate only on strictly
smaller effective latency. -/
def reduceFastest (store : List CallTelemetry) (m₀ : ModelMetadata)
    (ms : List ModelMetadata) : ModelMetadata :=
  ms.foldl
    (fun prev curr =>
      if getCurrentLatency store curr < getCurrentLatency store prev then
        curr
      else prev)
    m₀

/-- The fallback of `selectModel` when no model meets the latency bound:
`MODEL_REGISTRY.reduce((prev, curr) => latency curr < latency prev ? curr
: prev)`. -/
def fastestModel (store : List CallTelemetry) : ModelMetadata :=
  reduceFastest store gpt5mini [gpt5, gpt51thinking, gpt4omini]

/-- The viable set of `selectModel`: registry models whose effective latency
is within the configured bound. -/
def viableModels (store : List CallTelemetry) (config : RouterConfig) :
    List ModelMetadata :=
  MODEL_REGISTRY.filter
    (fun model => decide (getCurrentLatency store model ≤ config.maxLatencyMs))

/-- `selectModel`.  Returns `none` when the Zod validation
(`maxLatencyMs ≥ 0`) rejects the config, and otherwise the selected model's
full name together with a flag recording whether the latency-degradation
warning (`console.warn`) was emitted.  The descending stable sort followed
by taking element 0 is modelled by a fold that replaces the current best
only on strictly greater score (a stable sort keeps the earlier element in
front on ties). -/
def selectModel (config : RouterConfig) (store : List CallTelemetry) :
    Option (String × Bool) :=
  if ¬ (0 ≤ config.maxLatencyMs) then none
  else
    let estimatedInputTokens := jsOrDefault config.estimatedTokens 1000
    let estimatedOutputTokens : ℚ := ((⌊estimatedInputTokens * 0.5⌋ : ℤ) : ℚ)
    match viableModels store config with
    | [] => some ((fastestModel store).fullName, true)
    | v₀ :: vs =>
      let best :=
        vs.foldl
          (fun b m =>
            if scoreModel store m config estimatedInputTokens
                  estimatedOutputTokens >
                scoreModel store b config estimatedInputTokens
                  estimatedOutputTokens then
              m
            else b)
          v₀
      some (best.fullName, false)

end Router

namespace Extractor

/-- A quote with an optional speaker (`quotes` array elements of
`ExtractionSchema`). -/
structure Quote where
  quote : String
  speaker : Option String
deriving DecidableEq, Repr

/-- Categorised concepts (`concepts` object of `ExtractionSchema`). -/
structure Concepts where
  business : List String
  technical : List String
deriving DecidableEq, Repr

/-- Structured payload of one extraction (`ExtractionResult`). -/
structure Extraction where
  keyTakeaway : String
  companies : List String
  concepts : Concepts
  quotes : List Quote
  summary : String
deriving DecidableEq, Repr

/-- Per-chunk outcome (`ChunkResult`).  The wall-clock `processingTime`
field is omitted from the model. -/
structure ChunkResult where
  chunkIndex : Nat
  result : Extraction
  success : Bool
  error : Option String
deriving DecidableEq, Repr

/-- `MAX_RETRIES`. -/
def MAX_RETRIES : Nat := 3

/-- The structured payload recorded after retries are exhausted: every
structured field empty, and the summary holding the error text. -/
def failurePayload (msg : String) : Extraction :=
  { keyTakeaway := ""
    companies := []
    concepts := { business := [], technical := [] }
    quotes := []
    summary := "[Extraction failed: " ++ msg ++ "]" }

/-- `processChunk`, with the external structured-extraction call modelled by
an oracle `ex` from the attempt number (the source's `retries` argument) to
that attempt's outcome.  Alongside the `ChunkResult`, the list of backoff
delays slept (`1000 * (retries + 1)` before each retry) is returned.  The
`fuel` argument is only a structural-termination device: the source recurses
while `retries < MAX_RETRIES`, so `MAX_RETRIES` units of fuel make the
fuel-exhaustion branch unreachable from `processChunk`. -/
def processChunkGo (ex : Nat → Except String Extraction) (chunkIndex : Nat) :
    Nat → Nat → ChunkResult × List Nat
  | fuel, retries =>
    match ex retries with
    | .ok r =>
      ({ chunkIndex := chunkIndex, result := r, success := true
         error := none }, [])
    | .error msg =>
      if retries < MAX_RETRIES then
        match fuel with
        | 0 =>
          ({ chunkIndex := chunkIndex, result := failurePayload msg
             success := false, error := some msg }, [])
        | fuel' + 1 =>
          let rest := processChunkGo ex chunkIndex fuel' (retries + 1)
          (rest.1, 1000 * (retries + 1) :: rest.2)
      else
        ({ chunkIndex := chunkIndex, result := failurePayload msg
           success := false, error := some msg }, [])

/-- `processChunk(chunk, chunkIndex, totalChunks)` with `retries = 0`. -/
def processChunk (ex : Nat → Except String Extraction) (chunkIndex : Nat) :
    ChunkResult × List Nat :=
  processChunkGo ex chunkIndex MAX_RETRIES 0

/-- Body of the processing loop of `extractLargeDocument` for one pending
chunk index: run `processChunk`; on failure overwrite the stored summary
with the fallback summarization's result (`summarizeFailedChunk`, modelled
by the oracle `fb`). -/
def runChunk (ex : Nat → Nat → Except String Extraction) (fb : Nat → String)
    (idx : Nat) : ChunkResult :=
  let cr := (processChunk (ex idx) idx).1
  if cr.success then cr
  else { cr with result := { cr.result with summary := fb idx } }

/-- Insertion-order deduplication, the behaviour of filling a JavaScript
`Set` and converting it back with `Array.from`. -/
def dedupFirst (l : List String) : List String :=
  l.foldl (fun acc x => if acc.contains x then acc else acc ++ [x]) []

/-- JavaScript `s.substring(0, n)` (the model counts characters). -/
def strTake (s : String) (n : Nat) : String :=
  ⟨s.data.take n⟩

/-- `reduceResults`: aggregate the successful chunk results. -/
def reduceResults (chunkResults : List ChunkResult) : Extraction :=
  let successfulResults := chunkResults.filter (·.success)
  let allCompanies :=
    dedupFirst (successfulResults.map (·.result.companies)).flatten
  let businessConcepts :=
    dedupFirst (successfulResults.map (·.result.concepts.business)).flatten
  let technicalConcepts :=
    dedupFirst (successfulResults.map (·.result.concepts.technical)).flatten
  let allQuotes := (successfulResults.map (·.result.quotes)).flatten
  let summaries :=
    (successfulResults.map (·.result.summary)).filter (fun s => !(s == ""))
  let combinedSummary := String.intercalate " " summaries
  let keyTakeaway :=
    if summaries.length > 0 then
      strTake (String.intercalate " " (summaries.take 3)) 250
    else "Unable to extract key takeaway from document."
  { keyTakeaway := keyTakeaway
    companies := allCompanies
    concepts := { business := businessConcepts, technical := technicalConcepts }
    quotes := allQuotes
    summary := combinedSummary }

/-- Checkpoint snapshot (`Checkpoint`).  The `filePath` and `timestamp`
fields (file-system location and wall clock) are omitted from the model. -/
structure Checkpoint where
  totalChunks : Nat
  completedChunks : List Nat
  chunkResults : List ChunkResult
deriving DecidableEq, Repr

/-- The checkpoint value written by `saveCheckpoint` for a progress
snapshot: `completedChunks` lists the chunk indices of the successful
results. -/
def saveCheckpointData (totalChunks : Nat)
    (chunkResults : List ChunkResult) : Checkpoint :=
  { totalChunks := totalChunks
    completedChunks := (chunkResults.filter (·.success)).map (·.chunkIndex)
    chunkResults := chunkResults }

/-- The pending chunk indices of `extractLargeDocument`: all of
`0, …, n-1`, minus the checkpoint's completed chunks when resuming. -/
def chunksToProcess (n : Nat) (cp : Option Checkpoint) : List Nat :=
  match cp with
  | some c => (List.range n).filter (fun idx => !(c.completedChunks.contains idx))
  | none => List.range n

/-- Observable outcome of one `extractLargeDocument` run. -/
structure RunOutput where
  processed : List Nat
  chunkResults : List ChunkResult
  checkpoints : List Checkpoint
  final : Extraction
deriving Repr

/-- The processing core of `extractLargeDocument` over `n` chunks, with an
optional previously-loaded checkpoint: initialise the progress tracker from
the checkpoint, process each pending chunk in order (recording a checkpoint
write after every chunk), and reduce all accumulated chunk results.  The
generation API is the oracle `ex` (chunk index → attempt → outcome), the
fallback summarizer the oracle `fb`. -/
def runExtraction (ex : Nat → Nat → Except String Extraction)
    (fb : Nat → String) (n : Nat) (cp : Option Checkpoint) : RunOutput :=
  let initResults := match cp with
    | some c => c.chunkResults
    | none => []
  let idxs := chunksToProcess n cp
  let final :=
    idxs.foldl
      (fun (acc : List ChunkResult × List Checkpoint) idx =>
        let rs := acc.1 ++ [runChunk ex fb idx]
        (rs, acc.2 ++ [saveCheckpointData n rs]))
      (initResults, [])
  { processed := idxs
    chunkResults := final.1
    checkpoints := final.2
    final := reduceResults final.1 }

end Extractor

namespace Chunking

/-- The sentence-terminator characters of the regex `[^.!?]+[.!?]+`. -/
def isTermChar (c : Char) : Bool := c == '.' || c == '!' || c == '?'

/-- A whitespace character (JavaScript `\s`, for the ASCII range). -/
def isWs (c : Char) : Bool := c.isWhitespace

/-- `estimateTokens`: `Math.ceil(text.length / 4)`. -/
def estimateTokens (s : List Char) : Nat := (s.length + 3) / 4

/-- Fuelled implementation of the global regex match
`text.match(/[^.!?]+[.!?]+/g)`: repeatedly skip characters that cannot
start a match (terminators), take a maximal nonempty run of
non-terminators, then a maximal nonempty run of terminators; an
unterminated tail yields no further match.  The fuel only forces
structural termination; `matchSentences` supplies enough. -/
def matchSentencesF : Nat → List Char → List (List Char)
  | 0, _ => []
  | fuel + 1, s =>
    let s1 := s.dropWhile isTermChar
    let a := s1.takeWhile (fun c => !isTermChar c)
    let r1 := s1.dropWhile (fun c => !isTermChar c)
    let b := r1.takeWhile isTermChar
    let r2 := r1.dropWhile isTermChar
    if a.isEmpty then []
    else if b.isEmpty then []
    else (a ++ b) :: matchSentencesF fuel r2

/-- All matches of `/[^.!?]+[.!?]+/g` in the text. -/
def matchSentences (s : List Char) : List (List Char) :=
  matchSentencesF s.length s

/-- The sentence list of `chunkText`:
`text.match(/[^.!?]+[.!?]+/g) || [text]`. -/
def sentencesOf (text : List Char) : List (List Char) :=
  match matchSentences text with
  | [] => [text]
  | ss => ss

/-- Fuelled implementation of JavaScript `s.split(/\s+/)`: tokens between
maximal whitespace runs, with an empty token at an end that touches
whitespace (and `[""]` for the empty string). -/
def splitWsF : Nat → List Char → List (List Char)
  | 0, s => [s]
  | fuel + 1, s =>
    let w := s.takeWhile (fun c => !isWs c)
    let r := s.dropWhile (fun c => !isWs c)
    if r.isEmpty then [w]
    else w :: splitWsF fuel (r.dropWhile isWs)

/-- JavaScript `s.split(/\s+/)`. -/
def splitWs (s : List Char) : List (List Char) :=
  splitWsF (s.length + 1) s

/-- JavaScript `s.trimStart()` (the leading half of `trim`). -/
def trimStart (s : List Char) : List Char := s.dropWhile isWs

/-- JavaScript `s.trimEnd()` (the trailing half of `trim`). -/
def trimEnd (s : List Char) : List Char := (s.reverse.dropWhile isWs).reverse

/-- JavaScript `s.trim()`. -/
def trim (s : List Char) : List Char := trimEnd (trimStart s)

/-- The overlap seed of a new chunk:
`currentChunk.split(/\s+/).slice(-Math.floor(overlap / 4)).join(' ')`. -/
def overlapSeed (overlap : Nat) (cur : List Char) : List Char :=
  List.intercalate [' '] (jsSliceLast (splitWs cur) (overlap / 4))

/-- Loop state of `chunkText`.  Each recorded chunk is paired with the
overlap seed it was started from (`[]` for the first chunk); the pair's
second component is the pushed, trimmed content — `chunkText` itself
returns exactly those second components. -/
structure ChunkState where
  chunks : List (List Char × List Char)
  cur : List Char
  curSeed : List Char
  curTokens : Nat

/-- One iteration of the sentence loop of `chunkText`. -/
def chunkStep (chunkSize overlap : Nat) (st : ChunkState)
    (sentence : List Char) : ChunkState :=
  let sentenceTokens := estimateTokens sentence
  if st.curTokens + sentenceTokens > chunkSize ∧ st.cur ≠ [] then
    let seed := overlapSeed overlap st.cur
    { chunks := st.chunks ++ [(st.curSeed, trim st.cur)]
      cur := seed ++ ' ' :: sentence
      curSeed := seed
      curTokens := estimateTokens (seed ++ ' ' :: sentence) }
  else
    { st with
        cur := st.cur ++ sentence
        curTokens := st.curTokens + sentenceTokens }

/-- `chunkText`, instrumented to keep each chunk's overlap seed. -/
def chunkTextI (text : List Char) (chunkSize : Nat := 4000)
    (overlap : Nat := 200) : List (List Char × List Char) :=
  if estimateTokens text ≤ chunkSize then [([], text)]
  else
    let final :=
      (sentencesOf text).foldl (chunkStep chunkSize overlap) ⟨[], [], [], 0⟩
    if trim final.cur ≠ [] then
      final.chunks ++ [(final.curSeed, trim final.cur)]
    else final.chunks

/-- `chunkText`: the chunk contents. -/
def chunkText (text : List Char) (chunkSize : Nat := 4000)
    (overlap : Nat := 200) : List (List Char) :=
  (chunkTextI text chunkSize overlap).map Prod.snd

/-- Removing from a chunk the overlap words seeded at its start: the seed
occupies the chunk's first `(trimStart seed).length` characters (leading
whitespace of the seed is removed by the chunk's `trim`) plus the single
space the source inserts after it. -/
def removeSeed (p : List Char × List Char) : List Char :=
  p.2.drop ((trimStart p.1).length + 1)

/-- The claim's reconstruction: the first chunk, then every later chunk
with its seeded overlap words removed, concatenated. -/
def reconstruct (l : List (List Char × List Char)) : List Char :=
  match l with
  | [] => []
  | (_, c) :: rest => c ++ (rest.map removeSeed).flatten

/-- The string contains a non-whitespace character. -/
def hasNonWs (s : List Char) : Prop := ∃ c ∈ s, isWs c = false

/-- The string ends with a non-whitespace character. -/
def lastNonWs (s : List Char) : Prop :=
  ∃ c, s.getLast? = some c ∧ isWs c = false

/-- Shape of every regex match `[^.!?]+[.!?]+`: nonempty, ending in a
terminator character. -/
def sentenceOK (s : List Char) : Prop :=
  ∃ c, s.getLast? = some c ∧ isTermChar c = true

/-- Loop invariant of `chunkText` after processing the (nonempty) sentence
prefix `P`: the current chunk ends in a non-whitespace character, and
either nothing has been pushed yet and the current chunk is exactly the
processed sentences, or the current chunk splits into its recorded seed, a
space and a body `B` such that the chunks reconstructed so far followed by
`B` are the processed sentences (modulo leading-whitespace trimming). -/
def ChunkInv (P : List (List Char)) (st : ChunkState) : Prop :=
  lastNonWs st.cur ∧
  ((st.chunks = [] ∧ st.curSeed = [] ∧ st.cur = P.flatten) ∨
    (st.chunks ≠ [] ∧ hasNonWs st.curSeed ∧
      ∃ B, st.cur = st.curSeed ++ ' ' :: B ∧
        reconstruct st.chunks ++ B = trimStart P.flatten))

end Chunking

namespace Samples

/-- A sample telemetry entry, used as concrete input. -/
def sampleTelemetry : Router.CallTelemetry :=
  { model := "openai/gpt-5-mini"
    task := "classification"
    latencyMs := 400
    inputTokens := 1000
    outputTokens := 500
    cost := 0.45
    timestamp := 0
    success := true }

/-- Six recorded calls for `openai/gpt-5-mini` at 400 ms: enough telemetry
(more than 5 calls) for the router to use the observed average, which ties
the static 400 ms average of `openai/gpt-4o-mini`. -/
def tel6 : List Router.CallTelemetry :=
  [sampleTelemetry, sampleTelemetry, sampleTelemetry,
   sampleTelemetry, sampleTelemetry, sampleTelemetry]

/-- A config whose 100 ms latency bound no registry model can meet. -/
def cfgTight : Router.RouterConfig :=
  { task := .classification, maxLatencyMs := 100, priority := .cost }

/-- The end-to-end scenario config of the spec:
`{task: "classification", maxLatencyMs: 2000, priority: "cost"}`. -/
def cfgScenario : Router.RouterConfig :=
  { task := .classification, maxLatencyMs := 2000, priority := .cost }

/-- A sample structured payload, used as concrete oracle output. -/
def sampleExtraction : Extractor.Extraction :=
  { keyTakeaway := "AI SDK fundamentals."
    companies := ["Vercel"]
    concepts := { business := ["startups"], technical := ["streaming"] }
    quotes := [{ quote := "Ship it.", speaker := none }]
    summary := "A chunk about the AI SDK." }

/-- An extraction oracle that always succeeds. -/
def exOk : Nat → Nat → Except String Extractor.Extraction :=
  fun _ _ => .ok sampleExtraction

/-- An extraction oracle that always fails. -/
def exFail : Nat → Nat → Except String Extractor.Extraction :=
  fun _ _ => .error "boom"

/-- A constant fallback summarizer. -/
def fbConst : Nat → String := fun _ => "fallback summary"

/-- A failed chunk result, as recorded after exhausted retries. -/
def failedChunk : Extractor.ChunkResult :=
  { chunkIndex := 0
    result := Extractor.failurePayload "boom"
    success := false
    error := some "boom" }

/-- A successful chunk result for chunk 0. -/
def okChunk : Extractor.ChunkResult :=
  { chunkIndex := 0
    result := sampleExtraction
    success := true
    error := none }

/-- The checkpoint written after the single chunk of a one-chunk run. -/
def okCheckpoint : Extractor.Checkpoint :=
  Extractor.saveCheckpointData 1 [okChunk]

/-- A two-sentence document starting with a space; at chunk size 4 it is
split into two chunks. -/
def sampleDoc : List Char :=
  " Aaaa aaaa aaaa aaaa. Bbbb bbbb bbbb bbbb.".data

end Samples


/-! ## Theorems -/

section TelemetryClaims

open Router

/-- One more `recordTelemetry` call on an accumulated log. -/
lemma telemetryLog_append (es : List CallTelemetry) (t : CallTelemetry) :
    telemetryLog (es ++ [t]) = recordTelemetry (telemetryLog es) t := by
  simp [telemetryLog, List.foldl_append]

/-- The accumulated log is the most recent `MAX_TELEMETRY_ENTRIES` entries
in arrival order. -/
lemma telemetryLog_eq_drop (es : List CallTelemetry) :
    telemetryLog es = es.drop (es.length - MAX_TELEMETRY_ENTRIES) := by
  induction es using List.reverseRecOn with
  | nil => simp [telemetryLog]
  | append_singleton es t ih =>
    rw [telemetryLog_append, ih, recordTelemetry]
    simp only [MAX_TELEMETRY_ENTRIES] at *
    by_cases hn : es.length < 1000
    · have h1 : es.length - 1000 = 0 := by omega
      have h2 : (es ++ [t]).length - 1000 = 0 := by
        simp only [List.length_append, List.length_cons, List.length_nil]
        omega
      rw [h1, h2]
      simp only [List.drop_zero]
      rw [if_neg]
      simp only [List.length_append, List.length_cons, List.length_nil]
      omega
    · push_neg at hn
      have hlen : (es.drop (es.length - 1000)).length = 1000 := by
        rw [List.length_drop]; omega
      have hne : es.drop (es.length - 1000) ≠ [] := by
        intro h; rw [h] at hlen; simp at hlen
      rw [if_pos]
      · obtain ⟨c, l', hcl⟩ := List.exists_cons_of_ne_nil hne
        have htl : l' = es.drop (es.length - 1000 + 1) := by
          have h := List.tail_drop es (es.length - 1000)
          rw [hcl] at h
          simpa using h
        have hsplit : (es ++ [t]).drop ((es ++ [t]).length - 1000) =
            es.drop ((es ++ [t]).length - 1000) ++ [t] :=
          List.drop_append_of_le_length (by
            simp only [List.length_append, List.length_cons, List.length_nil]
            omega)
        rw [hcl, hsplit]
        simp only [List.cons_append, List.tail_cons]
        rw [htl]
        have harg : (es ++ [t]).length - 1000 = es.length - 1000 + 1 := by
          simp only [List.length_append, List.length_cons, List.length_nil]
          omega
        rw [harg]
      · rw [List.length_append, List.length_drop]
        simp only [List.length_cons, List.length_nil]
        omega

/-- C3: for every sequence of `recordTelemetry` calls the log length stays
within 1000, and after 1001 insertions the log is exactly the input
sequence minus its earliest entry — the 1000 most recent entries in arrival
order, the earliest-inserted entry evicted. -/
theorem recordTelemetry_bounded_fifo (es : List CallTelemetry) :
    (telemetryLog es).length ≤ MAX_TELEMETRY_ENTRIES ∧
      (es.length = 1001 → telemetryLog es = es.tail) := by
  constructor
  · rw [telemetryLog_eq_drop, List.length_drop]
    omega
  · intro h
    rw [telemetryLog_eq_drop, h]
    norm_num [MAX_TELEMETRY_ENTRIES, List.drop_one]

/-- Concrete instance of C3 at a 1001-entry insertion sequence. -/
theorem recordTelemetry_bounded_fifo_witness :
    (List.replicate 1001 Samples.sampleTelemetry).length = 1001 ∧
      Router.telemetryLog (List.replicate 1001 Samples.sampleTelemetry) =
        (List.replicate 1001 Samples.sampleTelemetry).tail :=
  ⟨by rw [List.length_replicate],
    (recordTelemetry_bounded_fifo (List.replicate 1001 Samples.sampleTelemetry)).2
      (by rw [List.length_replicate])⟩

end TelemetryClaims

section RouterClaims

open Router

/-- A model with no recorded telemetry keeps its static average latency. -/
lemma getCurrentLatency_no_telemetry (store : List CallTelemetry)
    (m : ModelMetadata)
    (h : store.filter (fun t => t.model == m.fullName) = []) :
    getCurrentLatency store m = m.avgLatencyMs := by
  unfold getCurrentLatency
  rw [getModelStats, getModelTelemetry, h]
  simp [jsSliceLast]

/-- With the empty store every model keeps its static average latency. -/
lemma getCurrentLatency_nil (m : ModelMetadata) :
    getCurrentLatency [] m = m.avgLatencyMs :=
  getCurrentLatency_no_telemetry [] m rfl

/-- The viable set of the end-to-end scenario config with empty telemetry:
all models within 2000 ms, i.e. all but the reasoning model. -/
lemma viableModels_nil_scenario :
    viableModels [] Samples.cfgScenario = [gpt5mini, gpt5, gpt4omini] := by
  have hmax : Samples.cfgScenario.maxLatencyMs = 2000 := rfl
  simp only [viableModels, MODEL_REGISTRY, List.filter_cons, List.filter_nil,
    getCurrentLatency_nil, decide_eq_true_eq, hmax]
  norm_num [gpt5mini, gpt5, gpt51thinking, gpt4omini]

/-- Scenario score of `openai/gpt-5-mini`. -/
lemma scoreModel_scenario_gpt5mini :
    scoreModel [] gpt5mini Samples.cfgScenario 1000 500 = 991 / 2300 := by
  unfold scoreModel
  norm_num [getCurrentLatency_nil, estimateCost, weightsFor,
    TaskCapabilities.get, gpt5mini, Samples.cfgScenario, max_def]

/-- Scenario score of `openai/gpt-5`. -/
lemma scoreModel_scenario_gpt5 :
    scoreModel [] gpt5 Samples.cfgScenario 1000 500 = 50417 / 150200 := by
  unfold scoreModel
  norm_num [getCurrentLatency_nil, estimateCost, weightsFor,
    TaskCapabilities.get, gpt5, Samples.cfgScenario, max_def]

/-- Scenario score of `openai/gpt-4o-mini`. -/
lemma scoreModel_scenario_gpt4omini :
    scoreModel [] gpt4omini Samples.cfgScenario 1000 500 = 1959 / 4600 := by
  unfold scoreModel
  norm_num [getCurrentLatency_nil, estimateCost, weightsFor,
    TaskCapabilities.get, gpt4omini, Samples.cfgScenario, max_def]

/-- The selection on the end-to-end scenario config with empty telemetry:
`openai/gpt-5-mini` wins on score (991/2300 over 1959/4600 for
`openai/gpt-4o-mini` and 50417/150200 for `openai/gpt-5`). -/
lemma selectModel_scenario_eval :
    selectModel Samples.cfgScenario [] = some ("openai/gpt-5-mini", false) := by
  have hmax : Samples.cfgScenario.maxLatencyMs = 2000 := rfl
  have hest : Samples.cfgScenario.estimatedTokens = none := rfl
  unfold selectModel
  rw [viableModels_nil_scenario]
  simp only [hmax, hest, jsOrDefault]
  norm_num [scoreModel_scenario_gpt5mini, scoreModel_scenario_gpt5,
    scoreModel_scenario_gpt4omini]
  rfl

/-- C1 (counterexample): on the end-to-end scenario config
`{task: classification, maxLatencyMs: 2000, priority: cost}` with empty
telemetry, `selectModel` does not return the basic-tier model
`openai/gpt-4o-mini`. -/
theorem selectModel_scenario_not_basic :
    (Router.selectModel Samples.cfgScenario []).map Prod.fst ≠
      some "openai/gpt-4o-mini" := by
  rw [selectModel_scenario_eval]
  simp

/-- C1 (amended): on the end-to-end scenario config with empty telemetry,
`selectModel` returns the standard-tier model `openai/gpt-5-mini` — the
highest-scoring viable model, tied for the lowest estimated cost among the
viable models (its estimated cost is 0.45, and every viable model's
estimated cost is at least 0.45). -/
theorem selectModel_scenario_selects_gpt5mini :
    Router.selectModel Samples.cfgScenario [] =
        some ("openai/gpt-5-mini", false) ∧
      Router.estimateCost Router.gpt5mini 1000 500 = 0.45 ∧
      (Router.viableModels [] Samples.cfgScenario).all
        (fun m => decide ((0.45 : ℚ) ≤ Router.estimateCost m 1000 500)) = true := by
  refine ⟨selectModel_scenario_eval,
    by norm_num [Router.estimateCost, Router.gpt5mini], ?_⟩
  rw [viableModels_nil_scenario]
  simp only [List.all_cons, List.all_nil, Bool.and_eq_true, decide_eq_true_eq]
  norm_num [Router.estimateCost, Router.gpt5mini, Router.gpt5, Router.gpt4omini]

/-- C10: passing `estimatedTokens = 0` behaves exactly like omitting it
(zero is falsy for `||`): the selection is unchanged for every task,
latency bound, priority and telemetry store, the estimated input token
count becomes the default 1000 and the estimated output token count
`floor(1000 * 0.5) = 500`. -/
theorem selectModel_estimatedTokens_zero_default (t : Router.Task) (lat : ℚ)
    (p : Router.Priority) (tel : List Router.CallTelemetry) :
    Router.selectModel
        { task := t, maxLatencyMs := lat, priority := p,
          estimatedTokens := some 0 } tel =
      Router.selectModel
        { task := t, maxLatencyMs := lat, priority := p,
          estimatedTokens := none } tel ∧
      Router.jsOrDefault (some 0) 1000 = 1000 ∧
      ((⌊Router.jsOrDefault (some 0) 1000 * 0.5⌋ : ℤ) : ℚ) = 500 := by
  refine ⟨?_, by norm_num [Router.jsOrDefault], by norm_num [Router.jsOrDefault]⟩
  have h : Router.jsOrDefault (some 0) 1000 = Router.jsOrDefault none 1000 := by
    norm_num [Router.jsOrDefault]
  simp only [Router.selectModel, Router.viableModels, Router.scoreModel, h]

/-- Unfolding `reduceFastest` one step. -/
lemma reduceFastest_cons (store : List CallTelemetry) (m₀ m : ModelMetadata)
    (ms : List ModelMetadata) :
    reduceFastest store m₀ (m :: ms) =
      reduceFastest store
        (if getCurrentLatency store m < getCurrentLatency store m₀ then m
         else m₀) ms := rfl

/-- The latency-fallback reduction picks a member of the candidate list. -/
lemma reduceFastest_mem (store : List CallTelemetry) :
    ∀ (ms : List ModelMetadata) (m₀ : ModelMetadata),
      reduceFastest store m₀ ms ∈ m₀ :: ms := by
  intro ms
  induction ms with
  | nil => intro m₀; simp [reduceFastest]
  | cons m ms ih =>
    intro m₀
    rw [reduceFastest_cons]
    rcases List.mem_cons.1
        (ih (if getCurrentLatency store m < getCurrentLatency store m₀ then m
             else m₀)) with h | h
    · rw [h]
      split
      · simp
      · simp
    · simp [List.mem_cons, h]

/-- The latency-fallback reduction attains the minimal effective latency. -/
lemma reduceFastest_le (store : List CallTelemetry) :
    ∀ (ms : List ModelMetadata) (m₀ : ModelMetadata),
      ∀ x ∈ m₀ :: ms,
        getCurrentLatency store (reduceFastest store m₀ ms) ≤
          getCurrentLatency store x := by
  intro ms
  induction ms with
  | nil =>
    intro m₀ x hx
    rcases List.mem_cons.1 hx with h | h
    · subst h; simp [reduceFastest]
    · simp at h
  | cons m ms ih =>
    intro m₀ x hx
    rw [reduceFastest_cons]
    by_cases hc : getCurrentLatency store m < getCurrentLatency store m₀
    · rw [if_pos hc]
      rcases List.mem_cons.1 hx with h | h
      · have hself := ih m m (List.mem_cons_self m ms)
        rw [h]
        linarith
      · exact ih m x h
    · rw [if_neg hc]
      push_neg at hc
      rcases List.mem_cons.1 hx with h | h
      · rw [h]
        exact ih m₀ m₀ (List.mem_cons_self m₀ ms)
      rcases List.mem_cons.1 h with h' | h'
      · have hself := ih m₀ m₀ (List.mem_cons_self m₀ ms)
        rw [h']
        linarith
      · exact ih m₀ x (List.mem_cons_of_mem m₀ h')

/-- In the empty-viable-set branch, `selectModel` returns the fallback
model's full name and emits the warning. -/
lemma selectModel_of_empty_viable (cfg : RouterConfig)
    (tel : List CallTelemetry) (h0 : 0 ≤ cfg.maxLatencyMs)
    (hv : viableModels tel cfg = []) :
    selectModel cfg tel = some ((fastestModel tel).fullName, true) := by
  unfold selectModel
  rw [if_neg (not_not_intro h0), hv]

/-- C6: whenever no registry model meets the latency bound (for a config
passing validation), `selectModel` does not fail: it returns the full name
of a registry model of system-wide minimal effective latency, with the
warning signal emitted. -/
theorem selectModel_empty_viable_fallback (cfg : RouterConfig)
    (tel : List CallTelemetry) (h0 : 0 ≤ cfg.maxLatencyMs)
    (hv : viableModels tel cfg = []) :
    ∃ m ∈ MODEL_REGISTRY,
      selectModel cfg tel = some (m.fullName, true) ∧
        ∀ m' ∈ MODEL_REGISTRY,
          getCurrentLatency tel m ≤ getCurrentLatency tel m' := by
  refine ⟨fastestModel tel, ?_, selectModel_of_empty_viable cfg tel h0 hv, ?_⟩
  · exact reduceFastest_mem tel [gpt5, gpt51thinking, gpt4omini] gpt5mini
  · intro m' hm'
    exact reduceFastest_le tel [gpt5, gpt51thinking, gpt4omini] gpt5mini m' hm'

/-- The 100 ms bound leaves no viable model when no telemetry is
recorded. -/
lemma viableModels_nil_tight : viableModels [] Samples.cfgTight = [] := by
  have hmax : Samples.cfgTight.maxLatencyMs = 100 := rfl
  simp only [viableModels, MODEL_REGISTRY, List.filter_cons, List.filter_nil,
    getCurrentLatency_nil, decide_eq_true_eq, hmax]
  norm_num [gpt5mini, gpt5, gpt51thinking, gpt4omini]

/-- Concrete instance of C6: a 100 ms bound that no model meets. -/
theorem selectModel_empty_viable_fallback_witness :
    (0 : ℚ) ≤ Samples.cfgTight.maxLatencyMs ∧
      Router.viableModels [] Samples.cfgTight = [] ∧
      ∃ m ∈ Router.MODEL_REGISTRY,
        Router.selectModel Samples.cfgTight [] = some (m.fullName, true) ∧
          ∀ m' ∈ Router.MODEL_REGISTRY,
            Router.getCurrentLatency [] m ≤ Router.getCurrentLatency [] m' :=
  ⟨by norm_num [Samples.cfgTight], viableModels_nil_tight,
    selectModel_empty_viable_fallback Samples.cfgTight []
      (by norm_num [Samples.cfgTight]) viableModels_nil_tight⟩

/-- C9: in the empty-viable-set fallback the model returned is the earliest
registry entry attaining the minimal effective latency: any registry entry
that is minimal and strictly faster than every earlier entry is the one
returned — on a latency tie the earlier entry wins, because the reduction
replaces its candidate only on strictly lower latency. -/
theorem selectModel_fallback_tie_keeps_earliest (cfg : RouterConfig)
    (tel : List CallTelemetry) (h0 : 0 ≤ cfg.maxLatencyMs)
    (hv : viableModels tel cfg = []) (i : Nat) (m : ModelMetadata)
    (hm : MODEL_REGISTRY[i]? = some m)
    (hmin : ∀ m' ∈ MODEL_REGISTRY,
      getCurrentLatency tel m ≤ getCurrentLatency tel m')
    (hfirst : ∀ j m', j < i → MODEL_REGISTRY[j]? = some m' →
      getCurrentLatency tel m < getCurrentLatency tel m') :
    selectModel cfg tel = some (m.fullName, true) := by
  rw [selectModel_of_empty_viable cfg tel h0 hv]
  suffices h : fastestModel tel = m by rw [h]
  have hm0 : gpt5mini ∈ MODEL_REGISTRY := List.mem_cons_self _ _
  have hm1 : gpt5 ∈ MODEL_REGISTRY :=
    List.mem_cons_of_mem _ (List.mem_cons_self _ _)
  have hm2 : gpt51thinking ∈ MODEL_REGISTRY :=
    List.mem_cons_of_mem _ (List.mem_cons_of_mem _ (List.mem_cons_self _ _))
  have hm3 : gpt4omini ∈ MODEL_REGISTRY :=
    List.mem_cons_of_mem _
      (List.mem_cons_of_mem _ (List.mem_cons_of_mem _ (List.mem_cons_self _ _)))
  have hi : i < MODEL_REGISTRY.length := by
    by_contra hge
    push_neg at hge
    rw [List.getElem?_eq_none hge] at hm
    exact Option.noConfusion hm
  have hi4 : i < 4 := hi
  clear hi
  interval_cases i
  · have hem : m = gpt5mini := by
      have : MODEL_REGISTRY[0]? = some gpt5mini := rfl
      rw [this] at hm
      exact (Option.some_inj.1 hm).symm
    subst hem
    have l1 := hmin gpt5 hm1
    have l2 := hmin gpt51thinking hm2
    have l3 := hmin gpt4omini hm3
    simp only [fastestModel, reduceFastest, List.foldl]
    split_ifs <;> first | rfl | linarith
  · have hem : m = gpt5 := by
      have : MODEL_REGISTRY[1]? = some gpt5 := rfl
      rw [this] at hm
      exact (Option.some_inj.1 hm).symm
    subst hem
    have f0 := hfirst 0 gpt5mini (by omega) rfl
    have l2 := hmin gpt51thinking hm2
    have l3 := hmin gpt4omini hm3
    simp only [fastestModel, reduceFastest, List.foldl]
    split_ifs <;> first | rfl | linarith
  · have hem : m = gpt51thinking := by
      have : MODEL_REGISTRY[2]? = some gpt51thinking := rfl
      rw [this] at hm
      exact (Option.some_inj.1 hm).symm
    subst hem
    have f0 := hfirst 0 gpt5mini (by omega) rfl
    have f1 := hfirst 1 gpt5 (by omega) rfl
    have l3 := hmin gpt4omini hm3
    simp only [fastestModel, reduceFastest, List.foldl]
    split_ifs <;> first | rfl | linarith
  · have hem : m = gpt4omini := by
      have : MODEL_REGISTRY[3]? = some gpt4omini := rfl
      rw [this] at hm
      exact (Option.some_inj.1 hm).symm
    subst hem
    have f0 := hfirst 0 gpt5mini (by omega) rfl
    have f1 := hfirst 1 gpt5 (by omega) rfl
    have f2 := hfirst 2 gpt51thinking (by omega) rfl
    simp only [fastestModel, reduceFastest, List.foldl]
    split_ifs <;> first | rfl | linarith


/-- All six sample entries belong to `openai/gpt-5-mini`. -/
lemma filter_tel6_gpt5mini :
    Samples.tel6.filter (fun t => t.model == "openai/gpt-5-mini") =
      Samples.tel6 := by
  simp [Samples.tel6, Samples.sampleTelemetry]

/-- With six 400 ms calls recorded, the router uses the observed average
latency of 400 ms for `openai/gpt-5-mini`. -/
lemma getCurrentLatency_tel6_gpt5mini :
    getCurrentLatency Samples.tel6 gpt5mini = 400 := by
  unfold getCurrentLatency
  rw [show gpt5mini.fullName = "openai/gpt-5-mini" from rfl, getModelStats,
    getModelTelemetry, filter_tel6_gpt5mini, jsSliceLast]
  norm_num [Samples.tel6, Samples.sampleTelemetry]

/-- The sample telemetry never mentions `openai/gpt-5`. -/
lemma getCurrentLatency_tel6_gpt5 :
    getCurrentLatency Samples.tel6 gpt5 = 1500 :=
  getCurrentLatency_no_telemetry Samples.tel6 gpt5
    (by simp [Samples.tel6, Samples.sampleTelemetry, gpt5])

/-- The sample telemetry never mentions `openai/gpt-5.1-thinking`. -/
lemma getCurrentLatency_tel6_gpt51thinking :
    getCurrentLatency Samples.tel6 gpt51thinking = 5000 :=
  getCurrentLatency_no_telemetry Samples.tel6 gpt51thinking
    (by simp [Samples.tel6, Samples.sampleTelemetry, gpt51thinking])

/-- The sample telemetry never mentions `openai/gpt-4o-mini`. -/
lemma getCurrentLatency_tel6_gpt4omini :
    getCurrentLatency Samples.tel6 gpt4omini = 400 :=
  getCurrentLatency_no_telemetry Samples.tel6 gpt4omini
    (by simp [Samples.tel6, Samples.sampleTelemetry, gpt4omini])

/-- Under the sample telemetry the 100 ms bound still leaves no viable
model. -/
lemma viableModels_tel6_tight :
    viableModels Samples.tel6 Samples.cfgTight = [] := by
  have hmax : Samples.cfgTight.maxLatencyMs = 100 := rfl
  simp only [viableModels, MODEL_REGISTRY, List.filter_cons, List.filter_nil,
    getCurrentLatency_tel6_gpt5mini, getCurrentLatency_tel6_gpt5,
    getCurrentLatency_tel6_gpt51thinking, getCurrentLatency_tel6_gpt4omini,
    decide_eq_true_eq, hmax]
  norm_num

/-- Under the sample telemetry `openai/gpt-5-mini` attains the minimal
effective latency (tied with `openai/gpt-4o-mini` at 400 ms). -/
lemma tel6_gpt5mini_minimal :
    ∀ m' ∈ MODEL_REGISTRY,
      getCurrentLatency Samples.tel6 gpt5mini ≤
        getCurrentLatency Samples.tel6 m' := by
  intro m' hm'
  rcases List.mem_cons.1 hm' with h | h
  · rw [h]
  rcases List.mem_cons.1 h with h' | h'
  · rw [h', getCurrentLatency_tel6_gpt5mini, getCurrentLatency_tel6_gpt5]
    norm_num
  rcases List.mem_cons.1 h' with h'' | h''
  · rw [h'', getCurrentLatency_tel6_gpt5mini,
      getCurrentLatency_tel6_gpt51thinking]
    norm_num
  rcases List.mem_cons.1 h'' with h3 | h3
  · rw [h3, getCurrentLatency_tel6_gpt5mini, getCurrentLatency_tel6_gpt4omini]
  · exact absurd h3 (List.not_mem_nil m')

/-- Concrete instance of C9: six telemetry entries give `openai/gpt-5-mini`
an observed 400 ms average, tying the static 400 ms of
`openai/gpt-4o-mini`; with a 100 ms bound the viable set is empty and the
earlier registry entry `openai/gpt-5-mini` wins the tie. -/
theorem selectModel_fallback_tie_keeps_earliest_witness :
    Router.viableModels Samples.tel6 Samples.cfgTight = [] ∧
      Router.getCurrentLatency Samples.tel6 Router.gpt5mini =
        Router.getCurrentLatency Samples.tel6 Router.gpt4omini ∧
      Router.selectModel Samples.cfgTight Samples.tel6 =
        some ("openai/gpt-5-mini", true) :=
  ⟨viableModels_tel6_tight,
    by rw [getCurrentLatency_tel6_gpt5mini, getCurrentLatency_tel6_gpt4omini],
    selectModel_fallback_tie_keeps_earliest Samples.cfgTight Samples.tel6
      (by norm_num [Samples.cfgTight]) viableModels_tel6_tight 0 gpt5mini rfl
      tel6_gpt5mini_minimal (fun j m' hj _ => absurd hj (by omega))⟩

end RouterClaims


section ExtractorClaims

open Extractor

/-- C4: when every attempt for a chunk fails, `processChunk` makes the
initial call plus `MAX_RETRIES = 3` retries, sleeping `1000 ms × attempt
number` before each retry (delays `[1000, 2000, 3000]`), and returns a
failed `ChunkResult` whose structured payload is empty (empty keyTakeaway,
companies, concepts and quotes); the extractor's loop then runs the
fallback summarization and overwrites exactly that result's summary field
with its output. -/
theorem processChunk_exhausts_retries_then_fallback
    (exC : Nat → Nat → Except String Extractor.Extraction)
    (fb : Nat → String) (idx : Nat) (msgs : Nat → String)
    (hfail : ∀ k, k ≤ Extractor.MAX_RETRIES →
      exC idx k = Except.error (msgs k)) :
    Extractor.processChunk (exC idx) idx =
      ({ chunkIndex := idx
         result := Extractor.failurePayload (msgs 3)
         success := false
         error := some (msgs 3) }, [1000, 2000, 3000]) ∧
    Extractor.runChunk exC fb idx =
      { chunkIndex := idx
        result :=
          { keyTakeaway := ""
            companies := []
            concepts := { business := [], technical := [] }
            quotes := []
            summary := fb idx }
        success := false
        error := some (msgs 3) } := by
  have h0 := hfail 0 (by decide)
  have h1 := hfail 1 (by decide)
  have h2 := hfail 2 (by decide)
  have h3 := hfail 3 (by decide)
  have hrun : Extractor.processChunk (exC idx) idx =
      ({ chunkIndex := idx
         result := Extractor.failurePayload (msgs 3)
         success := false
         error := some (msgs 3) }, [1000, 2000, 3000]) := by
    simp [Extractor.processChunk, Extractor.processChunkGo, h0, h1, h2, h3,
      Extractor.MAX_RETRIES]
  refine ⟨hrun, ?_⟩
  rw [Extractor.runChunk, hrun]
  simp [Extractor.failurePayload]

/-- Concrete instance of C4: an oracle whose every attempt fails. -/
theorem processChunk_exhausts_retries_then_fallback_witness :
    (∀ k, k ≤ Extractor.MAX_RETRIES →
      Samples.exFail 0 k = Except.error "boom") ∧
    Extractor.processChunk (Samples.exFail 0) 0 =
      ({ chunkIndex := 0
         result := Extractor.failurePayload "boom"
         success := false
         error := some "boom" }, [1000, 2000, 3000]) ∧
    Extractor.runChunk Samples.exFail Samples.fbConst 0 =
      { chunkIndex := 0
        result :=
          { keyTakeaway := ""
            companies := []
            concepts := { business := [], technical := [] }
            quotes := []
            summary := "fallback summary" }
        success := false
        error := some "boom" } :=
  ⟨fun _ _ => rfl,
    (processChunk_exhausts_retries_then_fallback Samples.exFail
      Samples.fbConst 0 (fun _ => "boom") (fun _ _ => rfl)).1,
    (processChunk_exhausts_retries_then_fallback Samples.exFail
      Samples.fbConst 0 (fun _ => "boom") (fun _ _ => rfl)).2⟩

/-- C5: restarting a 5-chunk extraction from a checkpoint whose completed
chunks are `{0, 1, 2}` processes exactly chunk indices 3 and 4, in order;
the stored results of chunks 0–2 are carried unchanged (as a prefix) into
the accumulated results, and the final aggregate is the reduction of the
stored results plus the two newly processed ones. -/
theorem resume_processes_exactly_remaining
    (ex : Nat → Nat → Except String Extraction) (fb : Nat → String)
    (rs : List ChunkResult) :
    (runExtraction ex fb 5
        (some { totalChunks := 5, completedChunks := [0, 1, 2],
                chunkResults := rs })).processed = [3, 4] ∧
    (runExtraction ex fb 5
        (some { totalChunks := 5, completedChunks := [0, 1, 2],
                chunkResults := rs })).chunkResults =
      rs ++ [runChunk ex fb 3, runChunk ex fb 4] ∧
    (runExtraction ex fb 5
        (some { totalChunks := 5, completedChunks := [0, 1, 2],
                chunkResults := rs })).final =
      reduceResults (rs ++ [runChunk ex fb 3, runChunk ex fb 4]) := by
  have hidx : chunksToProcess 5
      (some { totalChunks := 5, completedChunks := [0, 1, 2],
              chunkResults := rs }) = [3, 4] := rfl
  refine ⟨?_, ?_, ?_⟩ <;>
    simp [runExtraction, hidx, List.foldl]

/-- Repeated filtering by success is stable. -/
lemma filter_success_idem (crs : List ChunkResult) :
    (crs.filter (·.success)).filter (·.success) = crs.filter (·.success) := by
  induction crs with
  | nil => simp
  | cons a tl ih =>
    by_cases h : a.success
    · simp [List.filter_cons, h, ih]
    · simp [List.filter_cons, h, ih]

/-- `reduceResults` depends only on the successful chunk results. -/
lemma reduceResults_filter (crs : List ChunkResult) :
    reduceResults crs = reduceResults (crs.filter (·.success)) := by
  simp [reduceResults, filter_success_idem]

/-- Overwriting the summary of a failed entry does not change the
successful entries. -/
lemma filter_success_set_failed :
    ∀ (crs : List ChunkResult) (i : Nat) (r : ChunkResult) (s : String),
      crs[i]? = some r → r.success = false →
      (crs.set i
          { r with result := { r.result with summary := s } }).filter
        (·.success) = crs.filter (·.success) := by
  intro crs
  induction crs with
  | nil => intro i r s h _; simp at h
  | cons a tl ih =>
    intro i r s h hr
    cases i with
    | zero =>
      have ha : a = r := by simpa using h
      subst ha
      simp [List.set_cons_zero, List.filter_cons, hr]
    | succ n =>
      have htl : tl[n]? = some r := by simpa using h
      simp only [List.set_cons_succ, List.filter_cons]
      rw [ih n r s htl hr]

/-- C8: `reduceResults` aggregates only the results with `success = true`;
consequently overwriting a failed chunk result's summary field (as the
fallback summarization does) leaves every field of the final
`ExtractionResult` unchanged — the fallback summary never reaches the final
aggregate. -/
theorem reduceResults_ignores_failed_summaries (crs : List ChunkResult) :
    reduceResults crs = reduceResults (crs.filter (·.success)) ∧
    ∀ (i : Nat) (r : ChunkResult) (s : String),
      crs[i]? = some r → r.success = false →
      reduceResults (crs.set i
          { r with result := { r.result with summary := s } }) =
        reduceResults crs := by
  refine ⟨reduceResults_filter crs, ?_⟩
  intro i r s h hr
  rw [reduceResults_filter crs,
    reduceResults_filter
      (crs.set i { r with result := { r.result with summary := s } }),
    filter_success_set_failed crs i r s h hr]

/-- Concrete instance of C8: a failed chunk whose summary is overwritten. -/
theorem reduceResults_ignores_failed_summaries_witness :
    ([Samples.okChunk, Samples.failedChunk])[1]? = some Samples.failedChunk ∧
    Samples.failedChunk.success = false ∧
    Extractor.reduceResults
        ([Samples.okChunk, Samples.failedChunk].set 1
          { Samples.failedChunk with
              result :=
                { Samples.failedChunk.result with
                    summary := "fallback summary" } }) =
      Extractor.reduceResults [Samples.okChunk, Samples.failedChunk] :=
  ⟨rfl, rfl,
    (reduceResults_ignores_failed_summaries
        [Samples.okChunk, Samples.failedChunk]).2 1 Samples.failedChunk
      "fallback summary" rfl rfl⟩

/-- Every result record produced by the retry loop carries the chunk index
it was called with. -/
lemma processChunkGo_chunkIndex (ex : Nat → Except String Extraction)
    (idx : Nat) :
    ∀ fuel retries,
      (processChunkGo ex idx fuel retries).1.chunkIndex = idx := by
  intro fuel
  induction fuel with
  | zero =>
    intro retries
    unfold processChunkGo
    cases h : ex retries
    · simp only [h]
      split
      · rfl
      · rfl
    · rfl
  | succ f ih =>
    intro retries
    unfold processChunkGo
    cases h : ex retries
    · simp only [h]
      split
      · exact ih (retries + 1)
      · rfl
    · rfl

/-- The fallback overwrite keeps the chunk index. -/
lemma runChunk_chunkIndex (ex : Nat → Nat → Except String Extraction)
    (fb : Nat → String) (idx : Nat) :
    (runChunk ex fb idx).chunkIndex = idx := by
  rw [runChunk]
  split
  · exact processChunkGo_chunkIndex (ex idx) idx MAX_RETRIES 0
  · exact processChunkGo_chunkIndex (ex idx) idx MAX_RETRIES 0

/-- Membership in a written checkpoint's `completedChunks`. -/
lemma mem_completedChunks_iff (n : Nat) (rs : List ChunkResult) (i : Nat) :
    i ∈ (saveCheckpointData n rs).completedChunks ↔
      ∃ r ∈ rs, r.success = true ∧ r.chunkIndex = i := by
  simp only [saveCheckpointData, List.mem_map, List.mem_filter]
  constructor
  · rintro ⟨r, ⟨hr, hs⟩, hi⟩
    exact ⟨r, hr, hs, hi⟩
  · rintro ⟨r, hr, hs, hi⟩
    exact ⟨r, ⟨hr, hs⟩, hi⟩

/-- Every checkpoint accumulated by the processing loop is a
`saveCheckpointData` snapshot whose successful results have in-range
indices. -/
lemma runExtraction_checkpoints_shape
    (ex : Nat → Nat → Except String Extraction) (fb : Nat → String)
    (n : Nat) :
    ∀ (idxs : List Nat) (rs0 : List ChunkResult) (cps0 : List Checkpoint),
      (∀ r ∈ rs0, r.success = true → r.chunkIndex < n) →
      (∀ idx ∈ idxs, idx < n) →
      (∀ c ∈ cps0, ∃ rs, c = saveCheckpointData n rs ∧
        ∀ r ∈ rs, r.success = true → r.chunkIndex < n) →
      ∀ c ∈ (idxs.foldl
          (fun (acc : List ChunkResult × List Checkpoint) idx =>
            let rs := acc.1 ++ [runChunk ex fb idx]
            (rs, acc.2 ++ [saveCheckpointData n rs]))
          (rs0, cps0)).2,
        ∃ rs, c = saveCheckpointData n rs ∧
          ∀ r ∈ rs, r.success = true → r.chunkIndex < n := by
  intro idxs
  induction idxs with
  | nil =>
    intro rs0 cps0 _ _ hcps c hc
    exact hcps c hc
  | cons idx idxs ih =>
    intro rs0 cps0 hrs hidx hcps c hc
    rw [List.foldl_cons] at hc
    have hrs' : ∀ r ∈ rs0 ++ [runChunk ex fb idx],
        r.success = true → r.chunkIndex < n := by
      intro r hr hsucc
      rcases List.mem_append.1 hr with h | h
      · exact hrs r h hsucc
      · have : r = runChunk ex fb idx := by simpa using h
        rw [this, runChunk_chunkIndex]
        exact hidx idx (List.mem_cons_self idx idxs)
    refine ih (rs0 ++ [runChunk ex fb idx])
      (cps0 ++ [saveCheckpointData n (rs0 ++ [runChunk ex fb idx])]) hrs'
      (fun j hj => hidx j (List.mem_cons_of_mem idx hj)) ?_ c hc
    intro c' hc'
    rcases List.mem_append.1 hc' with h | h
    · exact hcps c' h
    · have : c' = saveCheckpointData n (rs0 ++ [runChunk ex fb idx]) := by
        simpa using h
      exact ⟨rs0 ++ [runChunk ex fb idx], this, hrs'⟩

/-- C7: every checkpoint written during a run over `n` chunks (given that a
resumed checkpoint's own successful results are in range) satisfies the
checkpoint invariant: `completedChunks` is a subset of `[0, totalChunks)`,
and an index is in `completedChunks` exactly when some stored chunk result
with that index has `success = true`. -/
theorem saveCheckpoint_completed_invariant
    (ex : Nat → Nat → Except String Extraction) (fb : Nat → String)
    (n : Nat) (cp : Option Checkpoint)
    (hcp : ∀ c, cp = some c → ∀ r ∈ c.chunkResults,
      r.success = true → r.chunkIndex < n) :
    ∀ c ∈ (runExtraction ex fb n cp).checkpoints,
      (∀ i ∈ c.completedChunks, i < c.totalChunks) ∧
      (∀ i, i ∈ c.completedChunks ↔
        ∃ r ∈ c.chunkResults, r.success = true ∧ r.chunkIndex = i) := by
  intro c hc
  have hshape : ∃ rs, c = saveCheckpointData n rs ∧
      ∀ r ∈ rs, r.success = true → r.chunkIndex < n := by
    cases cp with
    | none =>
      simp only [runExtraction] at hc
      apply runExtraction_checkpoints_shape ex fb n (chunksToProcess n none)
        [] []
      · intro r hr hsucc
        simp at hr
      · intro idx hidx
        simpa [chunksToProcess] using hidx
      · intro c' hc'
        simp at hc'
      · exact hc
    | some cpt =>
      simp only [runExtraction] at hc
      apply runExtraction_checkpoints_shape ex fb n
        (chunksToProcess n (some cpt)) cpt.chunkResults []
      · intro r hr hsucc
        exact hcp cpt rfl r hr hsucc
      · intro idx hidx
        simp only [chunksToProcess, List.mem_filter] at hidx
        exact List.mem_range.1 hidx.1
      · intro c' hc'
        simp at hc'
      · exact hc
  obtain ⟨rs, rfl, hbound⟩ := hshape
  constructor
  · intro i hi
    rcases (mem_completedChunks_iff n rs i).1 hi with ⟨r, hr, hsucc, hidx⟩
    have := hbound r hr hsucc
    simpa [saveCheckpointData, hidx] using this
  · intro i
    exact mem_completedChunks_iff n rs i

/-- Concrete instance of C7: a fresh one-chunk run whose single written
checkpoint records chunk 0 as completed. -/
theorem saveCheckpoint_completed_invariant_witness :
    Samples.okCheckpoint ∈
        (Extractor.runExtraction Samples.exOk Samples.fbConst 1
          none).checkpoints ∧
      (∀ i ∈ Samples.okCheckpoint.completedChunks,
        i < Samples.okCheckpoint.totalChunks) ∧
      (∀ i, i ∈ Samples.okCheckpoint.completedChunks ↔
        ∃ r ∈ Samples.okCheckpoint.chunkResults,
          r.success = true ∧ r.chunkIndex = i) :=
  ⟨by decide,
    saveCheckpoint_completed_invariant Samples.exOk Samples.fbConst 1 none
      (fun c h => Option.noConfusion h) Samples.okCheckpoint (by decide)⟩

end ExtractorClaims

section ChunkingClaims
open Chunking

lemma isWs_false_of_isTermChar {c : Char} (h : isTermChar c = true) :
    isWs c = false := by
  simp only [isTermChar, Bool.or_eq_true, beq_iff_eq] at h
  rcases h with (h | h) | h <;> subst h <;> decide

lemma lastNonWs_ne_nil {s : List Char} (h : lastNonWs s) : s ≠ [] := by
  rcases h with ⟨c, hc, _⟩
  intro hnil
  rw [hnil] at hc
  exact Option.noConfusion hc

lemma hasNonWs_of_lastNonWs {s : List Char} (h : lastNonWs s) : hasNonWs s := by
  rcases h with ⟨c, hc, hw⟩
  exact ⟨c, List.mem_of_mem_getLast? hc, hw⟩

lemma lastNonWs_of_sentenceOK {s : List Char} (h : sentenceOK s) :
    lastNonWs s := by
  rcases h with ⟨c, hc, ht⟩
  exact ⟨c, hc, isWs_false_of_isTermChar ht⟩

lemma sentenceOK_ne_nil {s : List Char} (h : sentenceOK s) : s ≠ [] :=
  lastNonWs_ne_nil (lastNonWs_of_sentenceOK h)

lemma getLast?_suffix {α : Type} {l' l : List α} (h : l' <:+ l)
    (hne : l' ≠ []) : l.getLast? = l'.getLast? := by
  obtain ⟨t, rfl⟩ := h
  exact List.getLast?_append_of_ne_nil t hne

lemma lastNonWs_suffix {l' l : List Char} (h : l' <:+ l) (hne : l' ≠ [])
    (hl : lastNonWs l) : lastNonWs l' := by
  rcases hl with ⟨c, hc, hw⟩
  refine ⟨c, ?_, hw⟩
  rw [← getLast?_suffix h hne]
  exact hc

lemma lastNonWs_append {s t : List Char} (ht : lastNonWs t) :
    lastNonWs (s ++ t) := by
  rcases ht with ⟨c, hc, hw⟩
  refine ⟨c, ?_, hw⟩
  rw [List.getLast?_append_of_ne_nil s (lastNonWs_ne_nil ⟨c, hc, hw⟩)]
  exact hc

lemma trimStart_append_of_hasNonWs {s : List Char} (t : List Char)
    (h : hasNonWs s) : trimStart (s ++ t) = trimStart s ++ t := by
  induction s with
  | nil => rcases h with ⟨c, hc, _⟩; simp at hc
  | cons a s ih =>
    by_cases ha : isWs a
    · have h' : hasNonWs s := by
        rcases h with ⟨c, hc, hw⟩
        rcases List.mem_cons.1 hc with rfl | hc'
        · rw [ha] at hw; exact Bool.noConfusion hw
        · exact ⟨c, hc', hw⟩
      simp only [trimStart, List.cons_append, List.dropWhile_cons, ha]
      exact ih h'
    · simp only [trimStart, List.cons_append, List.dropWhile_cons,
        Bool.not_eq_true] at *
      simp [ha]

lemma trimStart_ne_nil_of_hasNonWs {s : List Char} (h : hasNonWs s) :
    trimStart s ≠ [] := by
  induction s with
  | nil => rcases h with ⟨c, hc, _⟩; simp at hc
  | cons a s ih =>
    by_cases ha : isWs a
    · have h' : hasNonWs s := by
        rcases h with ⟨c, hc, hw⟩
        rcases List.mem_cons.1 hc with rfl | hc'
        · rw [ha] at hw; exact Bool.noConfusion hw
        · exact ⟨c, hc', hw⟩
      simpa [trimStart, List.dropWhile_cons, ha] using ih h'
    · simp [trimStart, List.dropWhile_cons, ha]

lemma lastNonWs_trimStart {s : List Char} (h : lastNonWs s) :
    lastNonWs (trimStart s) :=
  lastNonWs_suffix (List.dropWhile_suffix isWs)
    (trimStart_ne_nil_of_hasNonWs (hasNonWs_of_lastNonWs h)) h

lemma trimEnd_of_lastNonWs {s : List Char} (h : lastNonWs s) :
    trimEnd s = s := by
  rcases h with ⟨c, hc, hw⟩
  have hrev : s.reverse.head? = some c := by rw [List.head?_reverse]; exact hc
  rw [trimEnd]
  cases hs : s.reverse with
  | nil =>
    rw [hs] at hrev
    exact Option.noConfusion hrev
  | cons a t =>
    rw [hs] at hrev
    have ha : a = c := by simpa using hrev
    subst ha
    rw [List.dropWhile_cons, hw]
    simp only [Bool.false_eq_true, if_false]
    rw [← hs, List.reverse_reverse]

lemma trim_of_lastNonWs {s : List Char} (h : lastNonWs s) :
    trim s = trimStart s := by
  rw [trim, trimEnd_of_lastNonWs (lastNonWs_trimStart h)]

lemma sentenceOK_of_mem_matchSentencesF :
    ∀ (fuel : Nat) (s t : List Char),
      t ∈ matchSentencesF fuel s → sentenceOK t := by
  intro fuel
  induction fuel with
  | zero => intro s t ht; simp [matchSentencesF] at ht
  | succ f ih =>
    intro s t ht
    rw [matchSentencesF] at ht
    set s1 := s.dropWhile isTermChar with hs1
    by_cases ha : (s1.takeWhile (fun c => !isTermChar c)).isEmpty
    · rw [if_pos ha] at ht
      simp at ht
    rw [if_neg ha] at ht
    by_cases hb :
        ((s1.dropWhile (fun c => !isTermChar c)).takeWhile isTermChar).isEmpty
    · rw [if_pos hb] at ht
      simp at ht
    rw [if_neg hb] at ht
    rcases List.mem_cons.1 ht with rfl | ht'
    · set b := (s1.dropWhile (fun c => !isTermChar c)).takeWhile isTermChar
        with hbdef
      have hbne : b ≠ [] := by
        intro hnil
        rw [hnil] at hb
        simp at hb
      refine ⟨b.getLast hbne, ?_, ?_⟩
      · rw [List.getLast?_append_of_ne_nil _ hbne]
        exact List.getLast?_eq_getLast b hbne
      · exact List.mem_takeWhile_imp (List.getLast_mem hbne)
    · exact ih _ t ht'

lemma sentenceOK_of_mem_matchSentences {text t : List Char}
    (ht : t ∈ matchSentences text) : sentenceOK t :=
  sentenceOK_of_mem_matchSentencesF text.length text t ht

lemma dropWhile_head_ws {s : List Char}
    (h : s.dropWhile (fun c => !isWs c) ≠ []) :
    ∃ a t, s.dropWhile (fun c => !isWs c) = a :: t ∧ isWs a = true := by
  induction s with
  | nil => simp at h
  | cons c s ih =>
    by_cases hc : isWs c
    · exact ⟨c, s, by simp [List.dropWhile_cons, hc], hc⟩
    · rw [List.dropWhile_cons] at h ⊢
      simp only [hc, Bool.not_false, if_true] at h ⊢
      exact ih h

lemma dropWhile_ws_length {r : List Char} (hr : r ≠ [])
    (hhead : ∃ a t, r = a :: t ∧ isWs a = true) :
    (r.dropWhile isWs).length < r.length := by
  obtain ⟨a, t, rfl, ha⟩ := hhead
  rw [List.dropWhile_cons, ha]
  simp only [if_true]
  have hsuf : t.dropWhile isWs <:+ t := List.dropWhile_suffix isWs
  have := hsuf.length_le
  simp only [List.length_cons]
  omega

lemma splitWsF_ne_nil : ∀ (fuel : Nat) (s : List Char),
    splitWsF fuel s ≠ [] := by
  intro fuel s
  cases fuel with
  | zero => simp [splitWsF]
  | succ f =>
    rw [splitWsF]
    split
    · simp
    · simp

lemma splitWsF_words_nonWs :
    ∀ (fuel : Nat) (s : List Char), s.length < fuel →
      ∀ w ∈ splitWsF fuel s, ∀ c ∈ w, isWs c = false := by
  intro fuel
  induction fuel with
  | zero => intro s hs; omega
  | succ f ih =>
    intro s hs w hw c hc
    rw [splitWsF] at hw
    by_cases hr : (s.dropWhile (fun c => !isWs c)).isEmpty
    · rw [if_pos hr] at hw
      have hww : w = s.takeWhile (fun c => !isWs c) := by simpa using hw
      subst hww
      have := List.mem_takeWhile_imp hc
      simpa using this
    · rw [if_neg hr] at hw
      rcases List.mem_cons.1 hw with rfl | hw'
      · have := List.mem_takeWhile_imp hc
        simpa using this
      · have hrne : s.dropWhile (fun c => !isWs c) ≠ [] := by
          simpa [List.isEmpty_iff] using hr
        have hlen1 : ((s.dropWhile (fun c => !isWs c)).dropWhile isWs).length <
            (s.dropWhile (fun c => !isWs c)).length :=
          dropWhile_ws_length hrne (dropWhile_head_ws hrne)
        have hlen2 : (s.dropWhile (fun c => !isWs c)).length ≤ s.length :=
          (List.dropWhile_suffix _).length_le
        exact ih _ (by omega) w hw' c hc

lemma splitWsF_getLast :
    ∀ (fuel : Nat) (s : List Char), s.length < fuel → lastNonWs s →
      ∃ w, (splitWsF fuel s).getLast? = some w ∧ w ≠ [] := by
  intro fuel
  induction fuel with
  | zero => intro s hs; omega
  | succ f ih =>
    intro s hs hlast
    rw [splitWsF]
    by_cases hr : (s.dropWhile (fun c => !isWs c)).isEmpty
    · rw [if_pos hr]
      have hrnil : s.dropWhile (fun c => !isWs c) = [] := by
        simpa [List.isEmpty_iff] using hr
      have hws : s.takeWhile (fun c => !isWs c) = s := by
        have := List.takeWhile_append_dropWhile (fun c => !isWs c) s
        rw [hrnil] at this
        simpa using this
      rw [hws]
      exact ⟨s, rfl, lastNonWs_ne_nil hlast⟩
    · rw [if_neg hr]
      have hrne : s.dropWhile (fun c => !isWs c) ≠ [] := by
        simpa [List.isEmpty_iff] using hr
      have hlastr : lastNonWs (s.dropWhile (fun c => !isWs c)) :=
        lastNonWs_suffix (List.dropWhile_suffix _) hrne hlast
      have hs' : (s.dropWhile (fun c => !isWs c)).dropWhile isWs ≠ [] := by
        intro hnil
        have hall := List.dropWhile_eq_nil_iff.1 hnil
        rcases hlastr with ⟨c, hc, hcw⟩
        have := hall c (List.mem_of_mem_getLast? hc)
        rw [this] at hcw
        exact Bool.noConfusion hcw
      have hlasts' : lastNonWs ((s.dropWhile (fun c => !isWs c)).dropWhile isWs) :=
        lastNonWs_suffix (List.dropWhile_suffix _) hs' hlastr
      have hlen1 : ((s.dropWhile (fun c => !isWs c)).dropWhile isWs).length <
          (s.dropWhile (fun c => !isWs c)).length :=
        dropWhile_ws_length hrne (dropWhile_head_ws hrne)
      have hlen2 : (s.dropWhile (fun c => !isWs c)).length ≤ s.length :=
        (List.dropWhile_suffix _).length_le
      obtain ⟨w, hwl, hwne⟩ := ih _ (by omega) hlasts'
      refine ⟨w, ?_, hwne⟩
      have hLne := splitWsF_ne_nil f ((s.dropWhile (fun c => !isWs c)).dropWhile isWs)
      rw [show (s.takeWhile (fun c => !isWs c)) ::
          splitWsF f ((s.dropWhile (fun c => !isWs c)).dropWhile isWs) =
          [s.takeWhile (fun c => !isWs c)] ++
          splitWsF f ((s.dropWhile (fun c => !isWs c)).dropWhile isWs) from rfl]
      rw [List.getLast?_append_of_ne_nil _ hLne]
      exact hwl

lemma splitWs_words_nonWs {s : List Char} :
    ∀ w ∈ splitWs s, ∀ c ∈ w, isWs c = false :=
  splitWsF_words_nonWs (s.length + 1) s (by omega)

lemma splitWs_getLast {s : List Char} (h : lastNonWs s) :
    ∃ w, (splitWs s).getLast? = some w ∧ w ≠ [] :=
  splitWsF_getLast (s.length + 1) s (by omega) h

lemma jsSliceLast_suffix {α : Type} (l : List α) (k : Nat) :
    jsSliceLast l k <:+ l := by
  rw [jsSliceLast]
  split
  · exact List.suffix_refl l
  · exact List.drop_suffix _ l

lemma jsSliceLast_ne_nil {α : Type} {l : List α} (hl : l ≠ []) (k : Nat) :
    jsSliceLast l k ≠ [] := by
  rw [jsSliceLast]
  split
  · exact hl
  · have hpos : 0 < l.length := List.length_pos.2 hl
    intro hnil
    have := congrArg List.length hnil
    rw [List.length_drop] at this
    simp only [List.length_nil] at this
    rename_i hk
    omega

lemma exists_mem_intercalate {w : List Char} :
    ∀ {L : List (List Char)}, w ∈ L → ∀ {c : Char}, c ∈ w →
      c ∈ List.intercalate [' '] L := by
  intro L
  induction L with
  | nil => intro hw; simp at hw
  | cons x L ih =>
    intro hw c hc
    rcases List.mem_cons.1 hw with rfl | hw'
    · cases L with
      | nil => simpa [List.intercalate, List.intersperse] using hc
      | cons y L' =>
        simp only [List.intercalate, List.intersperse, List.flatten]
        exact List.mem_append.2 (Or.inl hc)
    · cases L with
      | nil => simp at hw'
      | cons y L' =>
        have hrec : c ∈ List.intercalate [' '] (y :: L') := ih hw' hc
        simp only [List.intercalate, List.intersperse, List.flatten] at hrec ⊢
        exact List.mem_append.2 (Or.inr (List.mem_append.2 (Or.inr hrec)))

lemma hasNonWs_overlapSeed {cur : List Char} (overlap : Nat)
    (h : lastNonWs cur) : hasNonWs (overlapSeed overlap cur) := by
  obtain ⟨w, hwl, hwne⟩ := splitWs_getLast h
  have hne : splitWs cur ≠ [] := splitWsF_ne_nil _ _
  have hslne : jsSliceLast (splitWs cur) (overlap / 4) ≠ [] :=
    jsSliceLast_ne_nil hne (overlap / 4)
  have hsl : (jsSliceLast (splitWs cur) (overlap / 4)).getLast? = some w := by
    rw [← getLast?_suffix (jsSliceLast_suffix (splitWs cur) (overlap / 4))
      hslne]
    exact hwl
  have hwmem : w ∈ jsSliceLast (splitWs cur) (overlap / 4) :=
    List.mem_of_mem_getLast? hsl
  have hwmem' : w ∈ splitWs cur :=
    (jsSliceLast_suffix (splitWs cur) (overlap / 4)).sublist.subset hwmem
  have hcmem : w.head hwne ∈ w := List.head_mem hwne
  refine ⟨w.head hwne, ?_, splitWs_words_nonWs w hwmem' _ hcmem⟩
  rw [overlapSeed]
  exact exists_mem_intercalate hwmem hcmem

lemma lastNonWs_cons {c : Char} {s : List Char} (h : lastNonWs s) :
    lastNonWs (c :: s) := by
  rcases h with ⟨d, hd, hw⟩
  refine ⟨d, ?_, hw⟩
  have hne : s ≠ [] := by
    intro hnil; rw [hnil] at hd; exact Option.noConfusion hd
  have := List.getLast?_append_of_ne_nil [c] hne
  simpa using this.trans hd

lemma reconstruct_append_singleton {l : List (List Char × List Char)}
    (hl : l ≠ []) (x : List Char × List Char) :
    reconstruct (l ++ [x]) = reconstruct l ++ removeSeed x := by
  cases l with
  | nil => exact absurd rfl hl
  | cons p rest =>
    obtain ⟨sd, c⟩ := p
    simp [reconstruct, List.map_append, List.flatten_append]

lemma reconstruct_close {P : List (List Char)} {st : ChunkState}
    (hinv : ChunkInv P st) :
    reconstruct (st.chunks ++ [(st.curSeed, trim st.cur)]) =
      trimStart P.flatten := by
  obtain ⟨hlast, hcase⟩ := hinv
  rcases hcase with ⟨hnil, _, hcur⟩ | ⟨hne, hseed, B, hcur, hrec⟩
  · rw [hnil]
    have h1 : reconstruct ([] ++ [(st.curSeed, trim st.cur)]) =
        trim st.cur := by
      simp [reconstruct]
    rw [h1, trim_of_lastNonWs hlast, hcur]
  · rw [reconstruct_append_singleton hne]
    have h1 : trim st.cur = trimStart st.curSeed ++ ' ' :: B := by
      rw [trim_of_lastNonWs hlast, hcur,
        trimStart_append_of_hasNonWs (' ' :: B) hseed]
    have h2 : removeSeed (st.curSeed, trim st.cur) = B := by
      rw [removeSeed]
      simp only
      rw [h1]
      rw [show trimStart st.curSeed ++ ' ' :: B =
          (trimStart st.curSeed ++ [' ']) ++ B by simp]
      rw [show (trimStart st.curSeed).length + 1 =
          (trimStart st.curSeed ++ [' ']).length by simp]
      exact List.drop_left _ _
    rw [h2, hrec]

lemma hasNonWs_flatten {P : List (List Char)} (hne : P ≠ [])
    (hok : ∀ x ∈ P, sentenceOK x) : hasNonWs P.flatten := by
  cases P with
  | nil => exact absurd rfl hne
  | cons s P' =>
    obtain ⟨c, hc, ht⟩ := hok s (List.mem_cons_self _ _)
    refine ⟨c, ?_, isWs_false_of_isTermChar ht⟩
    exact List.mem_flatten.2
      ⟨s, List.mem_cons_self _ _, List.mem_of_mem_getLast? hc⟩

lemma chunkStep_inv {size overlap : Nat} {P : List (List Char)}
    {st : ChunkState} {s : List Char} (hinv : ChunkInv P st)
    (hokP : ∀ x ∈ P, sentenceOK x) (hPne : P ≠ []) (hs : sentenceOK s) :
    ChunkInv (P ++ [s]) (chunkStep size overlap st s) := by
  have hlasts : lastNonWs s := lastNonWs_of_sentenceOK hs
  have hflat : (P ++ [s]).flatten = P.flatten ++ s := by simp
  have hPflat : hasNonWs P.flatten := hasNonWs_flatten hPne hokP
  obtain ⟨hlast, hcase⟩ := hinv
  rw [chunkStep]
  split
  · -- push branch: a new chunk is recorded and a fresh one seeded
    refine ⟨lastNonWs_append (lastNonWs_cons hlasts), Or.inr ?_⟩
    refine ⟨by simp, hasNonWs_overlapSeed overlap hlast, s, rfl, ?_⟩
    have hclose := reconstruct_close ⟨hlast, hcase⟩
    rw [hclose, hflat]
    rw [trimStart_append_of_hasNonWs s hPflat]
  · -- append branch: the sentence is appended to the current chunk
    refine ⟨lastNonWs_append hlasts, ?_⟩
    rcases hcase with ⟨hnil, hseed, hcur⟩ | ⟨hne, hseed, B, hcur, hrec⟩
    · refine Or.inl ⟨hnil, hseed, ?_⟩
      simp only [hcur, hflat]
    · refine Or.inr ⟨hne, hseed, B ++ s, ?_, ?_⟩
      · rw [hcur]
        simp
      · rw [hflat, trimStart_append_of_hasNonWs s hPflat, ← hrec]
        simp

lemma chunkFold_inv {size overlap : Nat} :
    ∀ (S : List (List Char)) (P : List (List Char)) (st : ChunkState),
      (∀ x ∈ P, sentenceOK x) → P ≠ [] → (∀ x ∈ S, sentenceOK x) →
      ChunkInv P st →
      ChunkInv (P ++ S) (S.foldl (chunkStep size overlap) st) := by
  intro S
  induction S with
  | nil =>
    intro P st hokP hPne _ hinv
    simpa using hinv
  | cons s S ih =>
    intro P st hokP hPne hokS hinv
    rw [List.foldl_cons]
    have hstep : ChunkInv (P ++ [s]) (chunkStep size overlap st s) :=
      chunkStep_inv hinv hokP hPne (hokS s (List.mem_cons_self _ _))
    have hres := ih (P ++ [s]) (chunkStep size overlap st s)
      (by
        intro x hx
        rcases List.mem_append.1 hx with h | h
        · exact hokP x h
        · have : x = s := by simpa using h
          rw [this]
          exact hokS s (List.mem_cons_self _ _))
      (by simp)
      (fun x hx => hokS x (List.mem_cons_of_mem s hx))
      hstep
    simpa using hres

/-- C2 (amended): for every document that gets split (its token estimate
exceeds the chunk size) and in which the sentence regex matches at least
once, concatenating the chunks produced by `chunkText` — keeping the first
chunk whole and dropping from every later chunk the overlap words seeded at
its start (plus the single inserted space) — reconstructs the document's
sentence sequence exactly up to the trimming of whitespace before the first
sentence: the reconstruction equals `trimStart` of the concatenated
sentence matches, so no sentence is dropped. -/
theorem chunkText_reconstruct_amended (text : List Char)
    (chunkSize overlap : Nat) (hbig : chunkSize < estimateTokens text)
    (hsent : matchSentences text ≠ []) :
    reconstruct (chunkTextI text chunkSize overlap) =
      trimStart (matchSentences text).flatten := by
  rw [chunkTextI, if_neg (by omega)]
  cases hS : matchSentences text with
  | nil => exact absurd hS hsent
  | cons s₁ rest =>
    have hso : sentencesOf text = s₁ :: rest := by
      rw [sentencesOf, hS]
    have hok : ∀ x ∈ s₁ :: rest, sentenceOK x := by
      intro x hx
      exact sentenceOK_of_mem_matchSentences (hS ▸ hx)
    have hst1 : chunkStep chunkSize overlap ⟨[], [], [], 0⟩ s₁ =
        ⟨[], s₁, [], 0 + estimateTokens s₁⟩ := by
      rw [chunkStep]
      rw [if_neg (by simp)]
      simp
    have hinv1 : ChunkInv [s₁]
        (chunkStep chunkSize overlap ⟨[], [], [], 0⟩ s₁) := by
      rw [hst1]
      exact ⟨lastNonWs_of_sentenceOK (hok s₁ (List.mem_cons_self _ _)),
        Or.inl ⟨rfl, rfl, by simp⟩⟩
    have hfold : ChunkInv ([s₁] ++ rest)
        (rest.foldl (chunkStep chunkSize overlap)
          (chunkStep chunkSize overlap ⟨[], [], [], 0⟩ s₁)) :=
      chunkFold_inv rest [s₁] _
        (by
          intro x hx
          have hxx : x = s₁ := by simpa using hx
          rw [hxx]
          exact hok s₁ (List.mem_cons_self _ _))
        (by simp)
        (fun x hx => hok x (List.mem_cons_of_mem _ hx)) hinv1
    rw [hso]
    rw [List.foldl_cons]
    set final := rest.foldl (chunkStep chunkSize overlap)
      (chunkStep chunkSize overlap ⟨[], [], [], 0⟩ s₁) with hfinal
    have hlastf : lastNonWs final.cur := hfold.1
    have hguard : trim final.cur ≠ [] := by
      rw [trim_of_lastNonWs hlastf]
      exact trimStart_ne_nil_of_hasNonWs (hasNonWs_of_lastNonWs hlastf)
    rw [if_pos hguard]
    have := reconstruct_close hfold
    simpa using this

/-- C2 (counterexample): for the document `" Aaaa aaaa aaaa aaaa. Bbbb bbbb
bbbb bbbb."` (leading space) at chunk size 4, concatenating the chunks with
each later chunk's seeded overlap words removed does not reconstruct the
document's sentence sequence exactly: the leading whitespace of the first
sentence is lost to the chunk's `trim()`. -/
theorem chunkText_reconstruct_counterexample :
    reconstruct (chunkTextI Samples.sampleDoc 4 200) ≠
      (sentencesOf Samples.sampleDoc).flatten := by
  decide

/-- Concrete instance of the amended C2 at the counterexample document. -/
theorem chunkText_reconstruct_amended_witness :
    4 < estimateTokens Samples.sampleDoc ∧
    matchSentences Samples.sampleDoc ≠ [] ∧
    reconstruct (chunkTextI Samples.sampleDoc 4 200) =
      trimStart (matchSentences Samples.sampleDoc).flatten :=
  ⟨by decide, by decide,
    chunkText_reconstruct_amended Samples.sampleDoc 4 200 (by decide)
      (by decide)⟩

end ChunkingClaims
